import Mathlib

/-!
Shallow embedding of the QC metric engine of keithj/simtools (src/QC.cpp).

The program computes two per-sample QC metrics on a `.sim` intensity file:
a probe-normalized sample magnitude (two passes over the record stream)
and an X/Y channel intensity difference, "xydiff" (one pass).

Intensities are embedded as real numbers (the C++ code computes with
`float`; the exact-real model captures the arithmetic the code performs,
while a small IEEE-style value type `F` below models the special values
infinity/NaN where the claims are about them).  The record source
(`class Sim`, in `Sim.cpp`, which is not part of the verified sources) is
modelled from the specification's interface description: a list of
records with a read cursor, a `reset` operation, and a `getNextRecord`
operation that fails once the records are exhausted or when a sample
name exceeds the configured bound.
-/

namespace SimQC

/-- Encoding-tagged intensity values of one record.  `QC.cpp` keeps two
vectors, `intensity_float` (`numberFormat == 0`) and `intensity_int`
(`uint16_t` fixed-point), and every read site branches on
`sim->numberFormat` to pick the vector to read from. -/
inductive Intensities where
  | fl : List ℝ → Intensities
  | fx : List ℕ → Intensities

/-- The numeric value at a flat index, as the C++ code obtains it: in the
floating-point branch the stored `float`, in the fixed-point branch the
`uint16_t` value converted to `float` (value-preserving). -/
noncomputable def Intensities.valueAt : Intensities → ℕ → ℝ
  | .fl v, i => v.getD i 0
  | .fx v, i => (v.getD i 0 : ℝ)

/-- One `.sim` record: a sample name plus `numProbes * numChannels`
intensity values, indexed as `probe_index * numChannels + channel_index`. -/
structure SimRecord where
  name : String
  intensities : Intensities

/-- Default record used for out-of-range `List.getD` lookups; never
reached under the well-formedness hypotheses of the theorems. -/
noncomputable def defaultRecord : SimRecord := ⟨"", .fl []⟩

/-- Model of a `Sim` handle: the header fields `QC.cpp` reads
(`numProbes`, `numChannels`, `numSamples`, `sampleNameSize`), the stored
records in file order, and the read cursor. -/
structure Sim where
  numProbes : ℕ
  numChannels : ℕ
  numSamples : ℕ
  sampleNameSize : ℕ
  records : List SimRecord
  cursor : ℕ

/-- Fatal errors of a run.  The C++ program reports these and exits
without writing results. -/
inductive QCError where
  | endOfData
  | nameTooLong
  | badChannelCount
deriving DecidableEq

/-- Modelled from the spec (the record source `Sim::reset` is not under
the verified sources): repositions the read cursor to the first record. -/
noncomputable def Sim.reset (s : Sim) : Sim := { s with cursor := 0 }

/-- Modelled from the spec (the record source `Sim::getNextRecord` is not
under the verified sources): returns the next record in insertion order,
fails with `endOfData` once all records have been read, and fails with
`nameTooLong` when the sample name exceeds the configured maximum
sample-name length. -/
noncomputable def Sim.getNextRecord (s : Sim) :
    Except QCError (SimRecord × Sim) :=
  match s.records[s.cursor]? with
  | none => .error .endOfData
  | some r =>
      if s.sampleNameSize < r.name.length then .error .nameTooLong
      else .ok (r, { s with cursor := s.cursor + 1 })

/-- Per-probe Euclidean magnitude of one record: the inner loops of
`QC::getNextMagnitudes` (QC.cpp:124-134), `sqrt` of the sum over the
channels of the squared intensity at `i * numChannels + j`. -/
noncomputable def probeMagnitude (numChannels : ℕ) (v : Intensities)
    (i : ℕ) : ℝ :=
  Real.sqrt (∑ j in Finset.range numChannels,
    (v.valueAt (i * numChannels + j)) ^ 2)

/-- The magnitude array produced by `QC::getNextMagnitudes` for one
record: one Euclidean magnitude per probe. -/
noncomputable def getNextMagnitudes (numProbes numChannels : ℕ)
    (v : Intensities) : List ℝ :=
  (List.range numProbes).map (probeMagnitude numChannels v)

/-- The sample loop of `QC::magnitudeByProbe` (QC.cpp:145-157): reads `n`
records, adding each record's per-probe magnitude array elementwise into
the accumulator `magByProbe[j] += magnitudes[j]`. -/
noncomputable def magnitudeByProbeLoop :
    ℕ → Sim → List ℝ → Except QCError (List ℝ × Sim)
  | 0, s, acc => .ok (acc, s)
  | n + 1, s, acc =>
      match s.getNextRecord with
      | .error e => .error e
      | .ok (r, s') =>
          magnitudeByProbeLoop n s'
            (List.zipWith (· + ·) acc
              (getNextMagnitudes s.numProbes s.numChannels r.intensities))

/-- `QC::magnitudeByProbe` (QC.cpp:137-163): pass 1.  Accumulates the
per-probe magnitudes over all `numSamples` records, then divides each
accumulator entry by `numSamples` to get the probe baselines. -/
noncomputable def magnitudeByProbe (s : Sim) :
    Except QCError (List ℝ × Sim) :=
  match magnitudeByProbeLoop s.numSamples s
      (List.replicate s.numProbes (0 : ℝ)) with
  | .error e => .error e
  | .ok (acc, s') =>
      .ok (acc.map (fun x => x / (s.numSamples : ℝ)), s')

/-- Per-sample normalized magnitude from the inner loop of
`QC::magnitudeBySample` (QC.cpp:178-182): sum over probes of
`magnitudes[j] / magByProbe[j]`, divided by `numProbes`. -/
noncomputable def sampleMetric (numProbes numChannels : ℕ) (B : List ℝ)
    (v : Intensities) : ℝ :=
  (∑ j in Finset.range numProbes,
    (getNextMagnitudes numProbes numChannels v).getD j 0 / B.getD j 0)
  / (numProbes : ℝ)

/-- The sample loop of `QC::magnitudeBySample` (QC.cpp:173-190): reads
`n` records, recording for each its name and normalized magnitude, in
read order. -/
noncomputable def magnitudeBySampleLoop (B : List ℝ) :
    ℕ → Sim → List (String × ℝ) →
    Except QCError (List (String × ℝ) × Sim)
  | 0, s, acc => .ok (acc, s)
  | n + 1, s, acc =>
      match s.getNextRecord with
      | .error e => .error e
      | .ok (r, s') =>
          magnitudeBySampleLoop B n s'
            (acc ++ [(r.name,
              sampleMetric s.numProbes s.numChannels B r.intensities)])

/-- `QC::magnitudeBySample` (QC.cpp:165-193): pass 2, over all
`numSamples` records. -/
noncomputable def magnitudeBySample (s : Sim) (B : List ℝ) :
    Except QCError (List (String × ℝ) × Sim) :=
  magnitudeBySampleLoop B s.numSamples s []

/-- `QC::writeMagnitude` (QC.cpp:66-87): reset, pass 1 (probe
baselines), reset again, pass 2 (normalized magnitudes); the resulting
name/value pairs are what the function writes to the output file. -/
noncomputable def writeMagnitude (s : Sim) :
    Except QCError (List (String × ℝ)) :=
  match magnitudeByProbe s.reset with
  | .error e => .error e
  | .ok (b, s1) =>
      match magnitudeBySample s1.reset b with
      | .error e => .error e
      | .ok (res, _) => .ok res

/-- Per-probe xydiff contribution (QC.cpp:210-218): channel 1 minus
channel 0 at probe `j`.  In the floating-point branch this is a `float`
subtraction; in the fixed-point branch the two `uint16_t` operands
undergo integral promotion to `int` (value-preserving, since `int` can
represent every `uint16_t` value), so the subtraction is an exact signed
integer difference, afterwards converted to `float`. -/
noncomputable def xydAt (numChannels : ℕ) (v : Intensities) (j : ℕ) : ℝ :=
  match v with
  | .fl w => w.getD (j * numChannels + 1) 0 - w.getD (j * numChannels) 0
  | .fx w => (((w.getD (j * numChannels + 1) 0 : ℤ) -
               (w.getD (j * numChannels) 0 : ℤ) : ℤ) : ℝ)

/-- Mean channel difference of one record (QC.cpp:201-221): sum of the
per-probe differences divided by `numProbes`. -/
noncomputable def xydiffOfRecord (numProbes numChannels : ℕ)
    (v : Intensities) : ℝ :=
  (∑ j in Finset.range numProbes, xydAt numChannels v j) / (numProbes : ℝ)

/-- The sample loop of `QC::xydiffBySample` (QC.cpp:198-224): reads `n`
records, recording for each its name and mean channel difference, in
read order. -/
noncomputable def xydiffBySampleLoop :
    ℕ → Sim → List (String × ℝ) →
    Except QCError (List (String × ℝ) × Sim)
  | 0, s, acc => .ok (acc, s)
  | n + 1, s, acc =>
      match s.getNextRecord with
      | .error e => .error e
      | .ok (r, s') =>
          xydiffBySampleLoop n s'
            (acc ++ [(r.name,
              xydiffOfRecord s.numProbes s.numChannels r.intensities)])

/-- `QC::xydiffBySample` (QC.cpp:195-225), over all `numSamples`
records. -/
noncomputable def xydiffBySample (s : Sim) :
    Except QCError (List (String × ℝ) × Sim) :=
  xydiffBySampleLoop s.numSamples s []

/-- `QC::writeXydiff` (QC.cpp:89-110): rejects any channel count other
than exactly 2 before touching the record stream, otherwise resets and
runs the single xydiff pass; the resulting name/value pairs are what the
function writes to the output file. -/
noncomputable def writeXydiff (s : Sim) :
    Except QCError (List (String × ℝ)) :=
  if s.numChannels ≠ 2 then .error .badChannelCount
  else
    match xydiffBySample s.reset with
    | .error e => .error e
    | .ok (res, _) => .ok res

/-- Well-formedness of a `Sim` handle, guaranteed by the record source:
exactly `numSamples` stored records, and every sample name fits within
the configured maximum length. -/
def simWF (s : Sim) : Prop :=
  s.records.length = s.numSamples ∧
  ∀ r ∈ s.records, r.name.length ≤ s.sampleNameSize

/-- Probe baseline: the arithmetic mean, over all samples, of the
per-probe Euclidean magnitude.  This is the closed form that pass 1 is
proved to compute. -/
noncomputable def baseline (s : Sim) (j : ℕ) : ℝ :=
  (s.records.map
    (fun r => probeMagnitude s.numChannels r.intensities j)).sum
  / (s.numSamples : ℝ)

/-- Normalized magnitude of one record given the dataset's baselines:
mean over probes of (per-probe magnitude divided by the probe
baseline). -/
noncomputable def normalizedMagnitude (s : Sim) (v : Intensities) : ℝ :=
  (∑ j in Finset.range s.numProbes,
    probeMagnitude s.numChannels v j / baseline s j) / (s.numProbes : ℝ)

/-! ### IEEE-style special values

The exact-real pipeline above renders the undefined divisions of the C++
code as Lean's total division (`x / 0 = 0`).  Where a claim is about the
special values the `float` arithmetic actually produces, the per-sample
metric is additionally modelled on `F`, a `float`-style value domain
with the two infinities and NaN. -/

/-- A `float`-style value: a finite real, one of the two infinities, or
NaN. -/
inductive F where
  | num : ℝ → F
  | pinf : F
  | ninf : F
  | nan : F

/-- IEEE-style addition on `F`: NaN absorbs, opposite infinities give
NaN, an infinity absorbs finite values. -/
noncomputable def F.add : F → F → F
  | .nan, _ => .nan
  | _, .nan => .nan
  | .num a, .num b => .num (a + b)
  | .num _, .pinf => .pinf
  | .num _, .ninf => .ninf
  | .pinf, .num _ => .pinf
  | .pinf, .pinf => .pinf
  | .pinf, .ninf => .nan
  | .ninf, .num _ => .ninf
  | .ninf, .ninf => .ninf
  | .ninf, .pinf => .nan

/-- IEEE-style division on `F` (with positive zero, as the
`calloc`-initialised accumulators of QC.cpp hold): a nonzero finite
value divided by zero gives a signed infinity, `0 / 0` gives NaN. -/
noncomputable def F.div : F → F → F
  | .nan, _ => .nan
  | _, .nan => .nan
  | .num a, .num b =>
      if b = 0 then
        (if a = 0 then .nan else if 0 < a then .pinf else .ninf)
      else .num (a / b)
  | .pinf, .num b => if b < 0 then .ninf else .pinf
  | .ninf, .num b => if b < 0 then .pinf else .ninf
  | .num _, .pinf => .num 0
  | .num _, .ninf => .num 0
  | .pinf, .pinf => .nan
  | .pinf, .ninf => .nan
  | .ninf, .pinf => .nan
  | .ninf, .ninf => .nan

/-- The per-sample metric of `QC::magnitudeBySample` (QC.cpp:178-182)
under `float` special-value semantics: the running total starts at 0,
accumulates `magnitudes[j] / magByProbe[j]` over the probes, and is
finally divided by `numProbes`. -/
noncomputable def magSampleF (numProbes : ℕ) (mags B : List ℝ) : F :=
  F.div
    (((List.range numProbes).map (fun j =>
        F.div (.num (mags.getD j 0)) (.num (B.getD j 0)))).foldl
      F.add (.num 0))
    (.num (numProbes : ℝ))

/-! ### The concrete two-sample dataset of the specification:
P = 2 probes, C = 2 channels, N = 2 samples, fixed-point encoding,
sample S1 = [(3,4),(0,0)], sample S2 = [(0,0),(6,8)]. -/

noncomputable def exRec1 : SimRecord := ⟨"S1", .fx [3, 4, 0, 0]⟩

noncomputable def exRec2 : SimRecord := ⟨"S2", .fx [0, 0, 6, 8]⟩

noncomputable def exSim : Sim :=
  { numProbes := 2, numChannels := 2, numSamples := 2, sampleNameSize := 255,
    records := [exRec1, exRec2], cursor := 0 }

/-! ### Degenerate datasets: zero samples, zero probes -/

/-- A dataset with one probe, one channel and zero samples. -/
noncomputable def zeroSampleSim : Sim :=
  { numProbes := 1, numChannels := 1, numSamples := 0, sampleNameSize := 255,
    records := [], cursor := 0 }

/-- A dataset with zero probes, two channels and one sample. -/
noncomputable def zeroProbeSim : Sim :=
  { numProbes := 0, numChannels := 2, numSamples := 1, sampleNameSize := 255,
    records := [⟨"S1", .fx []⟩], cursor := 0 }

/-- The dataset `exSim` with every raw intensity doubled. -/
noncomputable def exSim2 : Sim :=
  { numProbes := 2, numChannels := 2, numSamples := 2, sampleNameSize := 255,
    records := [⟨"S1", .fx [6, 8, 0, 0]⟩, ⟨"S2", .fx [0, 0, 12, 16]⟩],
    cursor := 0 }

/-- A dataset whose single probe has zero intensity in the only sample,
so its probe baseline is zero. -/
noncomputable def zeroBaselineSim : Sim :=
  { numProbes := 1, numChannels := 1, numSamples := 1, sampleNameSize := 255,
    records := [⟨"S1", .fx [0]⟩], cursor := 0 }

/-- A dataset whose only sample name ("S1", length 2) exceeds the
configured maximum sample-name length 1. -/
noncomputable def badNameSim : Sim :=
  { numProbes := 1, numChannels := 2, numSamples := 1, sampleNameSize := 1,
    records := [⟨"S1", .fx [1, 2]⟩], cursor := 0 }

/-! ### List helpers -/

lemma zipWith_add_map {α : Type} (l : List α) (f g : α → ℝ) :
    List.zipWith (· + ·) (l.map f) (l.map g) = l.map (fun x => f x + g x) := by
  induction l with
  | nil => rfl
  | cons x xs ih => simp [ih]

lemma getD_map_range {α : Type} (n : ℕ) (f : ℕ → α) (j : ℕ) (d : α)
    (h : j < n) : ((List.range n).map f).getD j d = f j := by
  rw [List.getD_eq_getElem?_getD, List.getElem?_map, List.getElem?_range h]
  rfl

lemma getElem?_eq_some_getD {α : Type} (l : List α) (i : ℕ) (d : α)
    (h : i < l.length) : l[i]? = some (l.getD i d) := by
  rw [List.getElem?_eq_getElem h, List.getD_eq_getElem?_getD,
    List.getElem?_eq_getElem h]
  rfl

lemma getD_mem_of_lt {α : Type} (l : List α) (i : ℕ) (d : α)
    (h : i < l.length) : l.getD i d ∈ l := by
  rw [List.getD_eq_getElem?_getD, List.getElem?_eq_getElem h]
  exact List.getElem_mem h

/-! ### Closed forms of the passes -/

/-- Reading position `cursor` splits the remaining records into the
record at the cursor followed by the rest. -/
lemma drop_cursor_cons (s : Sim) (h : s.cursor < s.records.length) :
    s.records.drop s.cursor =
      s.records.getD s.cursor defaultRecord ::
        s.records.drop (s.cursor + 1) := by
  rw [List.drop_eq_getElem_cons h]
  congr 1
  rw [List.getD_eq_getElem?_getD, List.getElem?_eq_getElem h]
  rfl

/-- Pass-1 loop: starting anywhere in the stream, reading `n` records
adds, for each probe `j`, the sum of the per-probe magnitudes of those
records into the accumulator, and advances the cursor by `n`. -/
lemma magnitudeByProbeLoop_ok (n : ℕ) : ∀ (s : Sim) (f : ℕ → ℝ),
    s.cursor + n ≤ s.records.length →
    (∀ r ∈ s.records, r.name.length ≤ s.sampleNameSize) →
    magnitudeByProbeLoop n s ((List.range s.numProbes).map f) =
      .ok ((List.range s.numProbes).map (fun j => f j +
          (((s.records.drop s.cursor).take n).map
            (fun r => probeMagnitude s.numChannels r.intensities j)).sum),
        { s with cursor := s.cursor + n }) := by
  induction n with
  | zero =>
    intro s f _ _
    simp [magnitudeByProbeLoop]
  | succ n ih =>
    intro s f hcur hname
    have hlt : s.cursor < s.records.length := by omega
    have hr : s.records[s.cursor]? =
        some (s.records.getD s.cursor defaultRecord) :=
      getElem?_eq_some_getD _ _ _ hlt
    have hfit : ¬ s.sampleNameSize <
        (s.records.getD s.cursor defaultRecord).name.length :=
      not_lt.mpr (hname _ (getD_mem_of_lt _ _ _ hlt))
    have step : magnitudeByProbeLoop (n + 1) s ((List.range s.numProbes).map f)
        = magnitudeByProbeLoop n { s with cursor := s.cursor + 1 }
            (List.zipWith (· + ·) ((List.range s.numProbes).map f)
              ((List.range s.numProbes).map (probeMagnitude s.numChannels
                (s.records.getD s.cursor defaultRecord).intensities))) := by
      simp only [magnitudeByProbeLoop, Sim.getNextRecord, hr, hfit, if_false,
        getNextMagnitudes]
    rw [step, zipWith_add_map]
    refine (ih { s with cursor := s.cursor + 1 }
        (fun j => f j + probeMagnitude s.numChannels
          (s.records.getD s.cursor defaultRecord).intensities j)
        (by dsimp only; omega) hname).trans ?_
    have hc : s.cursor + 1 + n = s.cursor + (n + 1) := by omega
    dsimp only
    rw [hc, drop_cursor_cons s hlt, List.take_succ_cons]
    congr 1
    congr 1
    apply List.map_congr_left
    intro j _
    rw [List.map_cons, List.sum_cons]
    ring

/-- Pass-2 loop: reading `n` records appends, in read order, one
name/metric pair per record, and advances the cursor by `n`. -/
lemma magnitudeBySampleLoop_ok (B : List ℝ) (n : ℕ) :
    ∀ (s : Sim) (acc : List (String × ℝ)),
    s.cursor + n ≤ s.records.length →
    (∀ r ∈ s.records, r.name.length ≤ s.sampleNameSize) →
    magnitudeBySampleLoop B n s acc =
      .ok (acc ++ ((s.records.drop s.cursor).take n).map (fun r =>
          (r.name, sampleMetric s.numProbes s.numChannels B r.intensities)),
        { s with cursor := s.cursor + n }) := by
  induction n with
  | zero =>
    intro s acc _ _
    simp [magnitudeBySampleLoop]
  | succ n ih =>
    intro s acc hcur hname
    have hlt : s.cursor < s.records.length := by omega
    have hr : s.records[s.cursor]? =
        some (s.records.getD s.cursor defaultRecord) :=
      getElem?_eq_some_getD _ _ _ hlt
    have hfit : ¬ s.sampleNameSize <
        (s.records.getD s.cursor defaultRecord).name.length :=
      not_lt.mpr (hname _ (getD_mem_of_lt _ _ _ hlt))
    have step : magnitudeBySampleLoop B (n + 1) s acc =
        magnitudeBySampleLoop B n { s with cursor := s.cursor + 1 }
          (acc ++ [((s.records.getD s.cursor defaultRecord).name,
            sampleMetric s.numProbes s.numChannels B
              (s.records.getD s.cursor defaultRecord).intensities)]) := by
      simp only [magnitudeBySampleLoop, Sim.getNextRecord, hr, hfit, if_false]
    rw [step]
    refine (ih { s with cursor := s.cursor + 1 } _
        (by dsimp only; omega) hname).trans ?_
    have hc : s.cursor + 1 + n = s.cursor + (n + 1) := by omega
    dsimp only
    rw [hc, drop_cursor_cons s hlt, List.take_succ_cons, List.map_cons]
    simp [List.append_assoc]

/-- Xydiff loop: reading `n` records appends, in read order, one
name/xydiff pair per record, and advances the cursor by `n`. -/
lemma xydiffBySampleLoop_ok (n : ℕ) :
    ∀ (s : Sim) (acc : List (String × ℝ)),
    s.cursor + n ≤ s.records.length →
    (∀ r ∈ s.records, r.name.length ≤ s.sampleNameSize) →
    xydiffBySampleLoop n s acc =
      .ok (acc ++ ((s.records.drop s.cursor).take n).map (fun r =>
          (r.name, xydiffOfRecord s.numProbes s.numChannels r.intensities)),
        { s with cursor := s.cursor + n }) := by
  induction n with
  | zero =>
    intro s acc _ _
    simp [xydiffBySampleLoop]
  | succ n ih =>
    intro s acc hcur hname
    have hlt : s.cursor < s.records.length := by omega
    have hr : s.records[s.cursor]? =
        some (s.records.getD s.cursor defaultRecord) :=
      getElem?_eq_some_getD _ _ _ hlt
    have hfit : ¬ s.sampleNameSize <
        (s.records.getD s.cursor defaultRecord).name.length :=
      not_lt.mpr (hname _ (getD_mem_of_lt _ _ _ hlt))
    have step : xydiffBySampleLoop (n + 1) s acc =
        xydiffBySampleLoop n { s with cursor := s.cursor + 1 }
          (acc ++ [((s.records.getD s.cursor defaultRecord).name,
            xydiffOfRecord s.numProbes s.numChannels
              (s.records.getD s.cursor defaultRecord).intensities)]) := by
      simp only [xydiffBySampleLoop, Sim.getNextRecord, hr, hfit, if_false]
    rw [step]
    refine (ih { s with cursor := s.cursor + 1 } _
        (by dsimp only; omega) hname).trans ?_
    have hc : s.cursor + 1 + n = s.cursor + (n + 1) := by omega
    dsimp only
    rw [hc, drop_cursor_cons s hlt, List.take_succ_cons, List.map_cons]
    simp [List.append_assoc]
/-- Pass 1 from a freshly reset handle computes exactly the probe
baselines `baseline s` and leaves the cursor on `numSamples`. -/
lemma magnitudeByProbe_reset (s : Sim) (hWF : simWF s) :
    magnitudeByProbe s.reset =
      .ok ((List.range s.numProbes).map (baseline s),
        { s with cursor := s.numSamples }) := by
  obtain ⟨hlen, hname⟩ := hWF
  have hrep : (List.replicate s.numProbes (0 : ℝ)) =
      (List.range s.numProbes).map (fun _ => 0) := by
    simp [List.map_const]
  have hloop := magnitudeByProbeLoop_ok s.numSamples s.reset (fun _ => 0)
      (by dsimp only [Sim.reset]; omega) hname
  unfold magnitudeByProbe
  dsimp only [Sim.reset] at hloop ⊢
  rw [hrep, hloop]
  dsimp only
  congr 1
  congr 1
  · rw [List.map_map]
    apply List.map_congr_left
    intro j _
    simp [baseline, List.take_of_length_le (le_of_eq hlen), Function.comp]
  · congr 1
    omega

/-- Pass 2 from a freshly reset handle records one name/metric pair per
stored record, in order, and leaves the cursor on `numSamples`. -/
lemma magnitudeBySample_reset (s : Sim) (B : List ℝ) (hWF : simWF s) :
    magnitudeBySample s.reset B =
      .ok (s.records.map (fun r =>
          (r.name, sampleMetric s.numProbes s.numChannels B r.intensities)),
        { s with cursor := s.numSamples }) := by
  obtain ⟨hlen, hname⟩ := hWF
  have hloop := magnitudeBySampleLoop_ok B s.numSamples s.reset []
      (by dsimp only [Sim.reset]; omega) hname
  unfold magnitudeBySample
  dsimp only [Sim.reset] at hloop ⊢
  rw [hloop]
  congr 1
  congr 1
  · simp [List.take_of_length_le (le_of_eq hlen)]
  · congr 1
    omega

/-- The xydiff pass from a freshly reset handle records one name/xydiff
pair per stored record, in order, and leaves the cursor on
`numSamples`. -/
lemma xydiffBySample_reset (s : Sim) (hWF : simWF s) :
    xydiffBySample s.reset =
      .ok (s.records.map (fun r =>
          (r.name, xydiffOfRecord s.numProbes s.numChannels r.intensities)),
        { s with cursor := s.numSamples }) := by
  obtain ⟨hlen, hname⟩ := hWF
  have hloop := xydiffBySampleLoop_ok s.numSamples s.reset []
      (by dsimp only [Sim.reset]; omega) hname
  unfold xydiffBySample
  dsimp only [Sim.reset] at hloop ⊢
  rw [hloop]
  congr 1
  congr 1
  · simp [List.take_of_length_le (le_of_eq hlen)]
  · congr 1
    omega

/-- Feeding pass 1's baseline list into the pass-2 per-sample metric
yields the closed-form normalized magnitude. -/
lemma sampleMetric_baseline (s : Sim) (v : Intensities) :
    sampleMetric s.numProbes s.numChannels
      ((List.range s.numProbes).map (baseline s)) v
      = normalizedMagnitude s v := by
  unfold sampleMetric normalizedMagnitude getNextMagnitudes
  congr 1
  apply Finset.sum_congr rfl
  intro j hj
  rw [getD_map_range _ _ _ _ (Finset.mem_range.mp hj),
    getD_map_range _ _ _ _ (Finset.mem_range.mp hj)]

/-- Closed form of the whole magnitude computation: one name/metric pair
per stored record, in read order, with the normalized-magnitude value. -/
lemma writeMagnitude_eq (s : Sim) (hWF : simWF s) :
    writeMagnitude s = .ok (s.records.map (fun r =>
      (r.name, normalizedMagnitude s r.intensities))) := by
  unfold writeMagnitude
  rw [magnitudeByProbe_reset s hWF]
  have hreset : ({ s with cursor := s.numSamples } : Sim).reset = s.reset := rfl
  dsimp only
  rw [hreset, magnitudeBySample_reset s _ hWF]
  dsimp only
  congr 1
  apply List.map_congr_left
  intro r _
  rw [sampleMetric_baseline]

/-- Closed form of the whole xydiff computation (two-channel case): one
name/xydiff pair per stored record, in read order. -/
lemma writeXydiff_eq (s : Sim) (hWF : simWF s) (hC : s.numChannels = 2) :
    writeXydiff s = .ok (s.records.map (fun r =>
      (r.name, xydiffOfRecord s.numProbes s.numChannels r.intensities))) := by
  unfold writeXydiff
  rw [if_neg (by simp [hC])]
  rw [xydiffBySample_reset s hWF]

lemma exSim_WF : simWF exSim := by
  refine ⟨rfl, ?_⟩
  intro r hr
  simp only [exSim, List.mem_cons, List.not_mem_nil, or_false] at hr
  rcases hr with h | h <;> subst h <;> decide

lemma pm_exRec1_0 : probeMagnitude 2 exRec1.intensities 0 = 5 := by
  norm_num [probeMagnitude, Intensities.valueAt, exRec1,
    Finset.sum_range_succ, List.getD]
  rw [show (25 : ℝ) = 5 ^ 2 by norm_num,
    Real.sqrt_sq (by norm_num : (0:ℝ) ≤ 5)]

lemma pm_exRec1_1 : probeMagnitude 2 exRec1.intensities 1 = 0 := by
  norm_num [probeMagnitude, Intensities.valueAt, exRec1,
    Finset.sum_range_succ, List.getD]

lemma pm_exRec2_0 : probeMagnitude 2 exRec2.intensities 0 = 0 := by
  norm_num [probeMagnitude, Intensities.valueAt, exRec2,
    Finset.sum_range_succ, List.getD]

lemma pm_exRec2_1 : probeMagnitude 2 exRec2.intensities 1 = 10 := by
  norm_num [probeMagnitude, Intensities.valueAt, exRec2,
    Finset.sum_range_succ, List.getD]
  rw [show (100 : ℝ) = 10 ^ 2 by norm_num,
    Real.sqrt_sq (by norm_num : (0:ℝ) ≤ 10)]

lemma baseline_exSim_0 : baseline exSim 0 = 5 / 2 := by
  have h1 := pm_exRec1_0
  have h2 := pm_exRec2_0
  simp only [baseline, exSim, List.map_cons, List.map_nil, List.sum_cons,
    List.sum_nil] at h1 h2 ⊢
  rw [h1, h2]
  norm_num

lemma baseline_exSim_1 : baseline exSim 1 = 5 := by
  have h1 := pm_exRec1_1
  have h2 := pm_exRec2_1
  simp only [baseline, exSim, List.map_cons, List.map_nil, List.sum_cons,
    List.sum_nil] at h1 h2 ⊢
  rw [h1, h2]
  norm_num

lemma normMag_exRec1 : normalizedMagnitude exSim exRec1.intensities = 1 := by
  unfold normalizedMagnitude
  rw [show exSim.numProbes = 2 from rfl, show exSim.numChannels = 2 from rfl,
    Finset.sum_range_succ, Finset.sum_range_succ, Finset.sum_range_zero,
    pm_exRec1_0, pm_exRec1_1, baseline_exSim_0, baseline_exSim_1]
  norm_num

lemma normMag_exRec2 : normalizedMagnitude exSim exRec2.intensities = 1 := by
  unfold normalizedMagnitude
  rw [show exSim.numProbes = 2 from rfl, show exSim.numChannels = 2 from rfl,
    Finset.sum_range_succ, Finset.sum_range_succ, Finset.sum_range_zero,
    pm_exRec2_0, pm_exRec2_1, baseline_exSim_0, baseline_exSim_1]
  norm_num

lemma writeMagnitude_exSim :
    writeMagnitude exSim = .ok [("S1", 1), ("S2", 1)] := by
  rw [writeMagnitude_eq exSim exSim_WF,
    show exSim.records = [exRec1, exRec2] from rfl,
    List.map_cons, List.map_cons, List.map_nil]
  rw [normMag_exRec1, normMag_exRec2]
  rfl

lemma xyd_exRec1 : xydiffOfRecord 2 2 exRec1.intensities = 1 / 2 := by
  norm_num [xydiffOfRecord, xydAt, exRec1, Finset.sum_range_succ,
    List.getD]

lemma xyd_exRec2 : xydiffOfRecord 2 2 exRec2.intensities = 1 := by
  norm_num [xydiffOfRecord, xydAt, exRec2, Finset.sum_range_succ,
    List.getD]

lemma writeXydiff_exSim :
    writeXydiff exSim = .ok [("S1", 1 / 2), ("S2", 1)] := by
  rw [writeXydiff_eq exSim exSim_WF rfl,
    show exSim.records = [exRec1, exRec2] from rfl,
    List.map_cons, List.map_cons, List.map_nil]
  rw [show exSim.numProbes = 2 from rfl, show exSim.numChannels = 2 from rfl,
    xyd_exRec1, xyd_exRec2]
  rfl

lemma F_add_nan_left (x : F) : F.add .nan x = .nan := by cases x <;> rfl

lemma F_add_nan_right (x : F) : F.add x .nan = .nan := by
  cases x <;> rfl

lemma foldl_add_from_nan (l : List F) : l.foldl F.add .nan = .nan := by
  induction l with
  | nil => rfl
  | cons x xs ih =>
    rw [List.foldl_cons, F_add_nan_left]
    exact ih

/-- Once a NaN enters the running sum it propagates to the result. -/
lemma foldl_add_nan (l : List F) (init : F) (h : F.nan ∈ l) :
    l.foldl F.add init = .nan := by
  induction l generalizing init with
  | nil => cases h
  | cons x xs ih =>
    rcases List.mem_cons.mp h with h1 | h1
    · rw [← h1, List.foldl_cons, F_add_nan_right]
      exact foldl_add_from_nan xs
    · rw [List.foldl_cons]
      exact ih _ h1

lemma F_div_nan_left (x : F) : F.div .nan x = .nan := by cases x <;> rfl

lemma probeMagnitude_nonneg (C : ℕ) (v : Intensities) (i : ℕ) :
    0 ≤ probeMagnitude C v i := Real.sqrt_nonneg _

lemma list_sum_nonneg_eq_zero {l : List ℝ} (h0 : ∀ x ∈ l, 0 ≤ x)
    (hs : l.sum = 0) : ∀ x ∈ l, x = 0 := by
  induction l with
  | nil => intro x hx; cases hx
  | cons a t ih =>
    have ha : 0 ≤ a := h0 a (by simp)
    have ht : 0 ≤ t.sum :=
      List.sum_nonneg (fun x hx => h0 x (by simp [hx]))
    have hsum : a + t.sum = 0 := by simpa using hs
    have ha0 : a = 0 := by linarith
    intro x hx
    rcases List.mem_cons.mp hx with h | h
    · rw [h]; exact ha0
    · exact ih (fun y hy => h0 y (by simp [hy])) (by linarith) x h

/-- A zero probe baseline forces every sample's magnitude at that probe
to be zero: the baseline is the mean of nonnegative magnitudes. -/
lemma baseline_zero_all (s : Sim) (i : ℕ) (hN : 1 ≤ s.numSamples)
    (hB : baseline s i = 0) :
    ∀ r ∈ s.records, probeMagnitude s.numChannels r.intensities i = 0 := by
  intro r hr
  have hNz : (s.numSamples : ℝ) ≠ 0 := Nat.cast_ne_zero.mpr (by omega)
  have hsum : (s.records.map
      (fun r => probeMagnitude s.numChannels r.intensities i)).sum = 0 := by
    unfold baseline at hB
    exact (div_eq_zero_iff.mp hB).resolve_right hNz
  have hall : ∀ x ∈ s.records.map
      (fun r => probeMagnitude s.numChannels r.intensities i), x = 0 := by
    apply list_sum_nonneg_eq_zero
    · intro x hx
      obtain ⟨q, _, hq⟩ := List.mem_map.mp hx
      rw [← hq]
      exact probeMagnitude_nonneg _ _ _
    · exact hsum
  exact hall _ (List.mem_map.mpr ⟨r, hr, rfl⟩)

/-- Under `float` semantics, a zero baseline at any probe makes every
sample's recorded magnitude metric the NaN sentinel: each per-probe term
is still computed (the probe is not skipped), the `0 / 0` term is NaN,
and NaN propagates through the accumulation and the final division. -/
lemma magSampleF_nan (s : Sim) (i : ℕ) (hi : i < s.numProbes)
    (hN : 1 ≤ s.numSamples) (hB : baseline s i = 0)
    (r : SimRecord) (hr : r ∈ s.records) :
    magSampleF s.numProbes
      (getNextMagnitudes s.numProbes s.numChannels r.intensities)
      ((List.range s.numProbes).map (baseline s)) = F.nan := by
  unfold magSampleF
  have hmem : F.nan ∈ (List.range s.numProbes).map (fun j =>
      F.div (.num ((getNextMagnitudes s.numProbes s.numChannels
          r.intensities).getD j 0))
        (.num (((List.range s.numProbes).map (baseline s)).getD j 0))) := by
    refine List.mem_map.mpr ⟨i, List.mem_range.mpr hi, ?_⟩
    unfold getNextMagnitudes
    rw [getD_map_range _ _ _ _ hi, getD_map_range _ _ _ _ hi,
      baseline_zero_all s i hN hB r hr, hB]
    simp [F.div]
  rw [foldl_add_nan _ _ hmem, F_div_nan_left]

lemma writeMagnitude_zeroSample : writeMagnitude zeroSampleSim = .ok [] := by
  rw [writeMagnitude_eq zeroSampleSim ⟨rfl, by intro r hr; cases hr⟩]
  rfl

lemma writeMagnitude_zeroProbe :
    writeMagnitude zeroProbeSim = .ok [("S1", 0)] := by
  have hWF : simWF zeroProbeSim := by
    refine ⟨rfl, ?_⟩
    intro r hr
    simp only [zeroProbeSim, List.mem_cons, List.not_mem_nil, or_false] at hr
    rw [hr]
    decide
  rw [writeMagnitude_eq zeroProbeSim hWF]
  simp [zeroProbeSim, normalizedMagnitude]

/-! ### Scale invariance helpers -/

lemma map_sum_getD {α : Type} (l : List α) (f : α → ℝ) (d : α) :
    (l.map f).sum = ∑ i in Finset.range l.length, f (l.getD i d) := by
  induction l with
  | nil => simp
  | cons a t ih =>
    rw [List.map_cons, List.sum_cons, List.length_cons,
      Finset.sum_range_succ', ih]
    simp only [List.getD_cons_succ, List.getD_cons_zero]
    ring

/-- Scaling every intensity of a record by `k ≥ 0` scales each per-probe
magnitude by `k`. -/
lemma probeMagnitude_scale (C : ℕ) (v w : Intensities) (k : ℝ) (hk : 0 ≤ k)
    (h : ∀ idx, w.valueAt idx = k * v.valueAt idx) (i : ℕ) :
    probeMagnitude C w i = k * probeMagnitude C v i := by
  unfold probeMagnitude
  have hsq : ∑ j in Finset.range C, (w.valueAt (i * C + j)) ^ 2
      = k ^ 2 * ∑ j in Finset.range C, (v.valueAt (i * C + j)) ^ 2 := by
    rw [Finset.mul_sum]
    apply Finset.sum_congr rfl
    intro j _
    rw [h]
    ring
  rw [hsq, Real.sqrt_mul (sq_nonneg k), Real.sqrt_sq hk]

/-- Scaling every intensity of every record by `k ≥ 0` scales each
probe baseline by `k`. -/
lemma baseline_scale (s t : Sim) (k : ℝ) (hk : 0 ≤ k)
    (hC : t.numChannels = s.numChannels)
    (hN : t.numSamples = s.numSamples)
    (hlen : t.records.length = s.records.length)
    (h : ∀ n idx, (t.records.getD n defaultRecord).intensities.valueAt idx
        = k * (s.records.getD n defaultRecord).intensities.valueAt idx)
    (j : ℕ) : baseline t j = k * baseline s j := by
  unfold baseline
  rw [map_sum_getD _ _ defaultRecord, map_sum_getD _ _ defaultRecord,
    hlen, hN, hC]
  rw [Finset.sum_congr rfl (fun n _ =>
    probeMagnitude_scale s.numChannels _ _ k hk (h n) j)]
  rw [← Finset.mul_sum, mul_div_assoc]

lemma getElem_eq_getD {α : Type} (l : List α) (i : ℕ) (d : α)
    (h : i < l.length) : l[i] = l.getD i d := by
  rw [List.getD_eq_getElem?_getD, List.getElem?_eq_getElem h]
  rfl

/-! ### Error propagation: over-long sample names -/

/-- If some record within reach of the pass has an over-long name, the
pass-1 loop fails with `nameTooLong`. -/
lemma magnitudeByProbeLoop_err (n : ℕ) : ∀ (s : Sim) (acc : List ℝ),
    s.cursor + n ≤ s.records.length →
    (∃ k < n, s.sampleNameSize <
      (s.records.getD (s.cursor + k) defaultRecord).name.length) →
    magnitudeByProbeLoop n s acc = .error .nameTooLong := by
  induction n with
  | zero =>
    rintro s acc _ ⟨k, hk, _⟩
    omega
  | succ n ih =>
    rintro s acc hcur ⟨k, hk, hbad⟩
    have hlt : s.cursor < s.records.length := by omega
    have hr : s.records[s.cursor]? =
        some (s.records.getD s.cursor defaultRecord) :=
      getElem?_eq_some_getD _ _ _ hlt
    by_cases h0 : s.sampleNameSize <
        (s.records.getD s.cursor defaultRecord).name.length
    · simp only [magnitudeByProbeLoop, Sim.getNextRecord, hr, if_pos h0]
    · have step : magnitudeByProbeLoop (n + 1) s acc =
          magnitudeByProbeLoop n { s with cursor := s.cursor + 1 }
            (List.zipWith (· + ·) acc
              (getNextMagnitudes s.numProbes s.numChannels
                (s.records.getD s.cursor defaultRecord).intensities)) := by
        simp only [magnitudeByProbeLoop, Sim.getNextRecord, hr, if_neg h0]
      rw [step]
      apply ih
      · dsimp only
        omega
      · have hk0 : k ≠ 0 := by
          rintro rfl
          exact h0 (by simpa using hbad)
        refine ⟨k - 1, by omega, ?_⟩
        have hidx : s.cursor + 1 + (k - 1) = s.cursor + k := by omega
        dsimp only
        rw [hidx]
        exact hbad

/-- If some record within reach of the pass has an over-long name, the
xydiff loop fails with `nameTooLong`. -/
lemma xydiffBySampleLoop_err (n : ℕ) :
    ∀ (s : Sim) (acc : List (String × ℝ)),
    s.cursor + n ≤ s.records.length →
    (∃ k < n, s.sampleNameSize <
      (s.records.getD (s.cursor + k) defaultRecord).name.length) →
    xydiffBySampleLoop n s acc = .error .nameTooLong := by
  induction n with
  | zero =>
    rintro s acc _ ⟨k, hk, _⟩
    omega
  | succ n ih =>
    rintro s acc hcur ⟨k, hk, hbad⟩
    have hlt : s.cursor < s.records.length := by omega
    have hr : s.records[s.cursor]? =
        some (s.records.getD s.cursor defaultRecord) :=
      getElem?_eq_some_getD _ _ _ hlt
    by_cases h0 : s.sampleNameSize <
        (s.records.getD s.cursor defaultRecord).name.length
    · simp only [xydiffBySampleLoop, Sim.getNextRecord, hr, if_pos h0]
    · have step : xydiffBySampleLoop (n + 1) s acc =
          xydiffBySampleLoop n { s with cursor := s.cursor + 1 }
            (acc ++ [((s.records.getD s.cursor defaultRecord).name,
              xydiffOfRecord s.numProbes s.numChannels
                (s.records.getD s.cursor defaultRecord).intensities)]) := by
        simp only [xydiffBySampleLoop, Sim.getNextRecord, hr, if_neg h0]
      rw [step]
      apply ih
      · dsimp only
        omega
      · have hk0 : k ≠ 0 := by
          rintro rfl
          exact h0 (by simpa using hbad)
        refine ⟨k - 1, by omega, ?_⟩
        have hidx : s.cursor + 1 + (k - 1) = s.cursor + k := by omega
        dsimp only
        rw [hidx]
        exact hbad

/-- An over-long sample name aborts the whole magnitude computation with
`nameTooLong`: no result list is produced. -/
lemma writeMagnitude_err (s : Sim)
    (hlen : s.records.length = s.numSamples)
    (hbad : ∃ k < s.numSamples, s.sampleNameSize <
      (s.records.getD k defaultRecord).name.length) :
    writeMagnitude s = .error .nameTooLong := by
  have herr := magnitudeByProbeLoop_err s.numSamples s.reset
      (List.replicate s.numProbes (0 : ℝ))
      (by dsimp only [Sim.reset]; omega)
      (by dsimp only [Sim.reset]; simpa using hbad)
  unfold writeMagnitude magnitudeByProbe
  dsimp only [Sim.reset] at herr ⊢
  rw [herr]

/-- An over-long sample name aborts the whole xydiff computation with
`nameTooLong` (two-channel case): no result list is produced. -/
lemma writeXydiff_err (s : Sim)
    (hlen : s.records.length = s.numSamples)
    (hC : s.numChannels = 2)
    (hbad : ∃ k < s.numSamples, s.sampleNameSize <
      (s.records.getD k defaultRecord).name.length) :
    writeXydiff s = .error .nameTooLong := by
  have herr := xydiffBySampleLoop_err s.numSamples s.reset []
      (by dsimp only [Sim.reset]; omega)
      (by dsimp only [Sim.reset]; simpa using hbad)
  unfold writeXydiff xydiffBySample
  rw [if_neg (by simp [hC])]
  dsimp only [Sim.reset] at herr ⊢
  rw [herr]

/-! ### Further shared facts and witness datasets -/

/-- Both encoding branches of the xydiff inner loop compute the plain
numeric difference of the channel-1 and channel-0 values. -/
lemma xydAt_eq_valueAt (C : ℕ) (v : Intensities) (j : ℕ) :
    xydAt C v j = v.valueAt (j * C + 1) - v.valueAt (j * C) := by
  cases v with
  | fl w => rfl
  | fx w =>
    simp only [xydAt, Intensities.valueAt]
    push_cast
    ring

lemma exSim2_WF : simWF exSim2 := by
  refine ⟨rfl, ?_⟩
  intro r hr
  simp only [exSim2, List.mem_cons, List.not_mem_nil, or_false] at hr
  rcases hr with h | h <;> subst h <;> decide

lemma exSim2_scales : ∀ n idx,
    (exSim2.records.getD n defaultRecord).intensities.valueAt idx
      = 2 * (exSim.records.getD n defaultRecord).intensities.valueAt idx := by
  intro n idx
  rcases n with _ | _ | n
  · show Intensities.valueAt (.fx [6, 8, 0, 0]) idx
        = 2 * Intensities.valueAt (.fx [3, 4, 0, 0]) idx
    rcases idx with _ | _ | _ | _ | idx <;>
      simp [Intensities.valueAt, List.getD] <;> norm_num
  · show Intensities.valueAt (.fx [0, 0, 12, 16]) idx
        = 2 * Intensities.valueAt (.fx [0, 0, 6, 8]) idx
    rcases idx with _ | _ | _ | _ | idx <;>
      simp [Intensities.valueAt, List.getD] <;> norm_num
  · show Intensities.valueAt (.fl []) idx = 2 * Intensities.valueAt (.fl []) idx
    simp [Intensities.valueAt]

lemma exSim_baseline_ne_zero : ∀ i < exSim.numProbes, baseline exSim i ≠ 0 := by
  intro i hi
  have hi2 : i < 2 := hi
  have : i = 0 ∨ i = 1 := by omega
  rcases this with h | h <;> subst h
  · rw [baseline_exSim_0]; norm_num
  · rw [baseline_exSim_1]; norm_num

lemma zeroBaselineSim_WF : simWF zeroBaselineSim := by
  refine ⟨rfl, ?_⟩
  intro r hr
  simp only [zeroBaselineSim, List.mem_cons, List.not_mem_nil, or_false] at hr
  rw [hr]
  decide

lemma zeroBaselineSim_baseline : baseline zeroBaselineSim 0 = 0 := by
  simp [baseline, zeroBaselineSim, probeMagnitude, Intensities.valueAt,
    Finset.sum_range_succ, List.getD]

lemma exSim2_names : ∀ n,
    (exSim2.records.getD n defaultRecord).name
      = (exSim.records.getD n defaultRecord).name := by
  intro n
  rcases n with _ | _ | n <;> rfl

/-! ## Claim theorems -/

/-- C1: for every dataset with N ≥ 1 samples and P ≥ 1 probes, the
magnitude computation forms the probe baseline as the arithmetic mean,
over all N samples, of the per-probe Euclidean magnitude, and assigns
each sample the mean over probes of (per-probe magnitude / baseline);
in particular, on the dataset with P=2, C=2, N=2,
S1 = [(3,4),(0,0)], S2 = [(0,0),(6,8)], the baselines are
B[0] = 2.5 and B[1] = 5 and both samples receive normalized
magnitude 1.0. -/
theorem C1_magnitude_normalization :
    (∀ s : Sim, simWF s → 1 ≤ s.numSamples → 1 ≤ s.numProbes →
      writeMagnitude s = .ok (s.records.map (fun r =>
        (r.name,
         (∑ i in Finset.range s.numProbes,
            probeMagnitude s.numChannels r.intensities i /
              ((s.records.map (fun q =>
                  probeMagnitude s.numChannels q.intensities i)).sum /
                (s.numSamples : ℝ))) / (s.numProbes : ℝ))))) ∧
    baseline exSim 0 = 5 / 2 ∧ baseline exSim 1 = 5 ∧
    writeMagnitude exSim = .ok [("S1", 1), ("S2", 1)] := by
  refine ⟨?_, baseline_exSim_0, baseline_exSim_1, writeMagnitude_exSim⟩
  intro s hWF _ _
  rw [writeMagnitude_eq s hWF]
  rfl

theorem C1_magnitude_normalization_witness :
    simWF exSim ∧ 1 ≤ exSim.numSamples ∧ 1 ≤ exSim.numProbes ∧
    writeMagnitude exSim = .ok (exSim.records.map (fun r =>
      (r.name,
       (∑ i in Finset.range exSim.numProbes,
          probeMagnitude exSim.numChannels r.intensities i /
            ((exSim.records.map (fun q =>
                probeMagnitude exSim.numChannels q.intensities i)).sum /
              (exSim.numSamples : ℝ))) / (exSim.numProbes : ℝ)))) :=
  ⟨exSim_WF, by decide, by decide,
    C1_magnitude_normalization.1 exSim exSim_WF (by decide) (by decide)⟩

/-- C2: for every two-channel dataset the xydiff of each sample is the
mean over probes of (channel-1 value minus channel-0 value), computed
directly on the numeric intensity values with no sqrt step, and the
i-th result entry carries the name of the i-th record read; in
particular, on the example dataset S1 gets 0.5 and S2 gets 1.0. -/
theorem C2_xydiff_mean_difference :
    (∀ s : Sim, simWF s → s.numChannels = 2 → 1 ≤ s.numProbes →
      writeXydiff s = .ok (s.records.map (fun r =>
        (r.name,
         (∑ j in Finset.range s.numProbes,
            (r.intensities.valueAt (j * s.numChannels + 1) -
             r.intensities.valueAt (j * s.numChannels))) /
           (s.numProbes : ℝ))))) ∧
    writeXydiff exSim = .ok [("S1", 1 / 2), ("S2", 1)] := by
  refine ⟨?_, writeXydiff_exSim⟩
  intro s hWF hC _
  rw [writeXydiff_eq s hWF hC]
  congr 1
  apply List.map_congr_left
  intro r _
  congr 1
  unfold xydiffOfRecord
  congr 1
  exact Finset.sum_congr rfl
    (fun j _ => xydAt_eq_valueAt s.numChannels r.intensities j)

theorem C2_xydiff_mean_difference_witness :
    simWF exSim ∧ exSim.numChannels = 2 ∧ 1 ≤ exSim.numProbes ∧
    writeXydiff exSim = .ok (exSim.records.map (fun r =>
      (r.name,
       (∑ j in Finset.range exSim.numProbes,
          (r.intensities.valueAt (j * exSim.numChannels + 1) -
           r.intensities.valueAt (j * exSim.numChannels))) /
         (exSim.numProbes : ℝ)))) :=
  ⟨exSim_WF, rfl, by decide,
    C2_xydiff_mean_difference.1 exSim exSim_WF rfl (by decide)⟩

/-- C3: the claim says a dataset with zero probes or zero samples makes
the magnitude computation fail fast with a reported error and no output;
the code has no such check.  On a zero-sample dataset it reports no
error and produces an empty output (pass 1 divides the zero accumulator
by `numSamples = 0`); on a zero-probe dataset it reports no error and
emits one line per sample whose value is the `0 / 0` division (NaN in
`float` semantics, rendered 0 by the exact-real embedding; the `F`
conjunct shows the metric is NaN under `float` semantics). -/
theorem C3_degenerate_inputs_not_failfast :
    writeMagnitude zeroSampleSim = .ok [] ∧
    writeMagnitude zeroProbeSim = .ok [("S1", 0)] ∧
    magSampleF 0 [] [] = F.nan :=
  ⟨writeMagnitude_zeroSample, writeMagnitude_zeroProbe,
    by simp [magSampleF, F.div]⟩

/-- C4: the xydiff computation rejects any channel count other than
exactly 2 with a fatal error, before the record stream is touched and
before any output is produced; with exactly 2 channels the check passes
and the computation proceeds to a result. -/
theorem C4_xydiff_channel_guard :
    (∀ s : Sim, s.numChannels ≠ 2 →
      writeXydiff s = .error .badChannelCount) ∧
    (∀ s : Sim, simWF s → s.numChannels = 2 →
      ∃ res, writeXydiff s = .ok res) := by
  constructor
  · intro s h
    unfold writeXydiff
    rw [if_pos h]
  · intro s hWF hC
    exact ⟨_, writeXydiff_eq s hWF hC⟩

theorem C4_xydiff_channel_guard_witness :
    ({ exSim with numChannels := 3 } : Sim).numChannels ≠ 2 ∧
    writeXydiff { exSim with numChannels := 3 } = .error .badChannelCount ∧
    simWF exSim ∧ exSim.numChannels = 2 ∧
    (∃ res, writeXydiff exSim = .ok res) :=
  ⟨by decide, C4_xydiff_channel_guard.1 _ (by decide), exSim_WF, rfl,
    C4_xydiff_channel_guard.2 exSim exSim_WF rfl⟩

/-- C5: multiplying every raw intensity of a dataset by a positive
factor k leaves every sample's normalized magnitude metric unchanged
(per-probe magnitudes and baselines both scale by k, so the quotients
are invariant), preconditioned on every baseline being nonzero. -/
theorem C5_scale_invariance :
    ∀ (s t : Sim) (k : ℝ), 0 < k → simWF s → simWF t →
      t.numProbes = s.numProbes → t.numChannels = s.numChannels →
      t.numSamples = s.numSamples →
      1 ≤ s.numSamples → 1 ≤ s.numProbes →
      (∀ i < s.numProbes, baseline s i ≠ 0) →
      (∀ n, (t.records.getD n defaultRecord).name
          = (s.records.getD n defaultRecord).name) →
      (∀ n idx, (t.records.getD n defaultRecord).intensities.valueAt idx
          = k * (s.records.getD n defaultRecord).intensities.valueAt idx) →
      writeMagnitude t = writeMagnitude s := by
  intro s t k hk hWFs hWFt hP hC hN hNs hPs hBnz hname hvals
  have hlen : t.records.length = s.records.length := by
    rw [hWFt.1, hWFs.1, hN]
  rw [writeMagnitude_eq t hWFt, writeMagnitude_eq s hWFs]
  congr 1
  apply List.ext_getElem
  · simp [hlen]
  · intro i h1 h2
    simp only [List.getElem_map]
    have hlt_t : i < t.records.length := by simpa using h1
    have hlt_s : i < s.records.length := by simpa using h2
    rw [getElem_eq_getD _ _ defaultRecord hlt_t,
      getElem_eq_getD _ _ defaultRecord hlt_s]
    have hmag : normalizedMagnitude t
        (t.records.getD i defaultRecord).intensities
        = normalizedMagnitude s
            (s.records.getD i defaultRecord).intensities := by
      unfold normalizedMagnitude
      rw [hP, hC]
      congr 1
      apply Finset.sum_congr rfl
      intro j _
      rw [probeMagnitude_scale s.numChannels _ _ k (le_of_lt hk)
          (hvals i) j,
        baseline_scale s t k (le_of_lt hk) hC hN hlen hvals j,
        mul_div_mul_left _ _ (ne_of_gt hk)]
    rw [hname i, hmag]

theorem C5_scale_invariance_witness :
    (0 : ℝ) < 2 ∧ simWF exSim ∧ simWF exSim2 ∧
    exSim2.numProbes = exSim.numProbes ∧
    exSim2.numChannels = exSim.numChannels ∧
    exSim2.numSamples = exSim.numSamples ∧
    1 ≤ exSim.numSamples ∧ 1 ≤ exSim.numProbes ∧
    (∀ i < exSim.numProbes, baseline exSim i ≠ 0) ∧
    (∀ n, (exSim2.records.getD n defaultRecord).name
        = (exSim.records.getD n defaultRecord).name) ∧
    (∀ n idx, (exSim2.records.getD n defaultRecord).intensities.valueAt idx
        = 2 * (exSim.records.getD n defaultRecord).intensities.valueAt idx) ∧
    writeMagnitude exSim2 = writeMagnitude exSim :=
  ⟨by norm_num, exSim_WF, exSim2_WF, rfl, rfl, rfl, by decide, by decide,
    exSim_baseline_ne_zero, exSim2_names, exSim2_scales,
    C5_scale_invariance exSim exSim2 2 (by norm_num) exSim_WF exSim2_WF
      rfl rfl rfl (by decide) (by decide) exSim_baseline_ne_zero
      exSim2_names exSim2_scales⟩

/-- C6: the per-probe magnitude computation is encoding-agnostic: when
the fixed-point values are numerically equal to the floating-point
values, the fixed-point and floating-point branches of
`getNextMagnitudes` produce the identical magnitude array. -/
theorem C6_encoding_agnostic :
    ∀ (P C : ℕ) (iv : List ℕ) (fv : List ℝ),
      (∀ idx, fv.getD idx 0 = (iv.getD idx 0 : ℝ)) →
      getNextMagnitudes P C (.fx iv) = getNextMagnitudes P C (.fl fv) := by
  intro P C iv fv h
  unfold getNextMagnitudes
  apply List.map_congr_left
  intro i _
  unfold probeMagnitude
  congr 1
  apply Finset.sum_congr rfl
  intro j _
  simp only [Intensities.valueAt]
  rw [h]

theorem C6_encoding_agnostic_witness :
    (∀ idx, ([3, 4] : List ℝ).getD idx 0
        = (([3, 4] : List ℕ).getD idx 0 : ℝ)) ∧
    getNextMagnitudes 1 2 (.fx [3, 4]) = getNextMagnitudes 1 2 (.fl [3, 4]) := by
  have h : ∀ idx : ℕ, ([3, 4] : List ℝ).getD idx 0
      = (([3, 4] : List ℕ).getD idx 0 : ℝ) := by
    intro idx
    rcases idx with _ | _ | idx <;> simp [List.getD]
  exact ⟨h, C6_encoding_agnostic 1 2 [3, 4] [3, 4] h⟩

/-- C7: when a probe baseline is zero (all samples report zero intensity
at that probe), the magnitude computation neither skips the probe nor
aborts: one result entry per sample is still produced, and under
`float` special-value semantics every sample's recorded metric is the
NaN sentinel produced by the unguarded `magnitude[i] / B[i]`
division. -/
theorem C7_zero_baseline_sentinel :
    ∀ (s : Sim) (i : ℕ), simWF s → 1 ≤ s.numSamples → i < s.numProbes →
      baseline s i = 0 →
      writeMagnitude s = .ok (s.records.map (fun r =>
        (r.name, normalizedMagnitude s r.intensities))) ∧
      ∀ r ∈ s.records,
        magSampleF s.numProbes
          (getNextMagnitudes s.numProbes s.numChannels r.intensities)
          ((List.range s.numProbes).map (baseline s)) = F.nan := by
  intro s i hWF hN hi hB
  exact ⟨writeMagnitude_eq s hWF,
    fun r hr => magSampleF_nan s i hi hN hB r hr⟩

theorem C7_zero_baseline_sentinel_witness :
    simWF zeroBaselineSim ∧ 1 ≤ zeroBaselineSim.numSamples ∧
    0 < zeroBaselineSim.numProbes ∧ baseline zeroBaselineSim 0 = 0 ∧
    (writeMagnitude zeroBaselineSim = .ok (zeroBaselineSim.records.map
        (fun r => (r.name, normalizedMagnitude zeroBaselineSim
          r.intensities))) ∧
      ∀ r ∈ zeroBaselineSim.records,
        magSampleF zeroBaselineSim.numProbes
          (getNextMagnitudes zeroBaselineSim.numProbes
            zeroBaselineSim.numChannels r.intensities)
          ((List.range zeroBaselineSim.numProbes).map
            (baseline zeroBaselineSim)) = F.nan) :=
  ⟨zeroBaselineSim_WF, by decide, by decide, zeroBaselineSim_baseline,
    C7_zero_baseline_sentinel zeroBaselineSim 0 zeroBaselineSim_WF
      (by decide) (by decide) zeroBaselineSim_baseline⟩

/-- C8: a magnitude computation is exactly two passes over the record
source, with a reset before pass 1 and another between the passes; each
pass reads exactly `numSamples` records (the cursor ends on
`numSamples`), and re-running pass 1 on the handle after pass 1, with
the interposed reset, reads the same records and yields identical
baselines. -/
theorem C8_two_pass_rewind_determinism :
    ∀ s : Sim, simWF s →
      ∃ B s1 res s2,
        magnitudeByProbe s.reset = .ok (B, s1) ∧
        s1.cursor = s.numSamples ∧
        magnitudeBySample s1.reset B = .ok (res, s2) ∧
        s2.cursor = s.numSamples ∧
        writeMagnitude s = .ok res ∧
        magnitudeByProbe s1.reset = .ok (B, s1) := by
  intro s hWF
  have hp1 := magnitudeByProbe_reset s hWF
  have hp2 := magnitudeBySample_reset s
    ((List.range s.numProbes).map (baseline s)) hWF
  have hres : writeMagnitude s = .ok (s.records.map (fun r =>
      (r.name, sampleMetric s.numProbes s.numChannels
        ((List.range s.numProbes).map (baseline s)) r.intensities))) := by
    rw [writeMagnitude_eq s hWF]
    congr 1
    apply List.map_congr_left
    intro r _
    congr 1
    rw [sampleMetric_baseline]
  refine ⟨_, _, _, _, hp1, rfl, hp2, rfl, hres, hp1⟩

theorem C8_two_pass_rewind_determinism_witness :
    simWF exSim ∧
    (∃ B s1 res s2,
      magnitudeByProbe exSim.reset = .ok (B, s1) ∧
      s1.cursor = exSim.numSamples ∧
      magnitudeBySample s1.reset B = .ok (res, s2) ∧
      s2.cursor = exSim.numSamples ∧
      writeMagnitude exSim = .ok res ∧
      magnitudeByProbe s1.reset = .ok (B, s1)) :=
  ⟨exSim_WF, C8_two_pass_rewind_determinism exSim exSim_WF⟩

/-- C9: a record whose sample name exceeds the configured maximum
length makes the computation fail with a propagated fatal error and no
result list; when every name fits, the computation succeeds and each
result entry carries its record's name unmodified, in read order. -/
theorem C9_name_length_errors :
    (∀ s : Sim, s.records.length = s.numSamples →
      (∃ k < s.numSamples, s.sampleNameSize <
        (s.records.getD k defaultRecord).name.length) →
      writeMagnitude s = .error .nameTooLong) ∧
    (∀ s : Sim, s.records.length = s.numSamples → s.numChannels = 2 →
      (∃ k < s.numSamples, s.sampleNameSize <
        (s.records.getD k defaultRecord).name.length) →
      writeXydiff s = .error .nameTooLong) ∧
    (∀ s : Sim, simWF s → ∃ res, writeMagnitude s = .ok res ∧
      res.map Prod.fst = s.records.map SimRecord.name) ∧
    (∀ s : Sim, simWF s → s.numChannels = 2 →
      ∃ res, writeXydiff s = .ok res ∧
        res.map Prod.fst = s.records.map SimRecord.name) := by
  refine ⟨fun s h1 h2 => writeMagnitude_err s h1 h2,
    fun s h1 hC h2 => writeXydiff_err s h1 hC h2, ?_, ?_⟩
  · intro s hWF
    refine ⟨_, writeMagnitude_eq s hWF, ?_⟩
    rw [List.map_map]
    rfl
  · intro s hWF hC
    refine ⟨_, writeXydiff_eq s hWF hC, ?_⟩
    rw [List.map_map]
    rfl

theorem C9_name_length_errors_witness :
    badNameSim.records.length = badNameSim.numSamples ∧
    (∃ k < badNameSim.numSamples, badNameSim.sampleNameSize <
      (badNameSim.records.getD k defaultRecord).name.length) ∧
    writeMagnitude badNameSim = .error .nameTooLong ∧
    badNameSim.numChannels = 2 ∧
    writeXydiff badNameSim = .error .nameTooLong ∧
    simWF exSim ∧
    (∃ res, writeMagnitude exSim = .ok res ∧
      res.map Prod.fst = exSim.records.map SimRecord.name) :=
  ⟨rfl, ⟨0, by decide, by decide⟩,
    C9_name_length_errors.1 badNameSim rfl ⟨0, by decide, by decide⟩,
    rfl,
    C9_name_length_errors.2.1 badNameSim rfl rfl ⟨0, by decide, by decide⟩,
    exSim_WF,
    C9_name_length_errors.2.2.1 exSim exSim_WF⟩

/-- C10: in the fixed-point xydiff path each per-probe contribution is
the exact signed integer difference of the two `uint16_t` channel
values (promoted to `int` before subtraction), so a probe with
channel 0 larger than channel 1 contributes the true negative
difference and never a modulo-2^16 wrapped positive value; hence the
xydiff of a 2-channel fixed-point record is the exact mean of the
signed channel differences. -/
theorem C10_fixedpoint_exact_signed :
    ∀ (P : ℕ) (w : List ℕ), (∀ x ∈ w, x < 65536) →
      (xydiffOfRecord P 2 (.fx w) =
        ((∑ j in Finset.range P,
            ((w.getD (j * 2 + 1) 0 : ℤ) - (w.getD (j * 2) 0 : ℤ)) : ℤ) : ℝ)
          / (P : ℝ)) ∧
      (∀ j, w.getD (j * 2 + 1) 0 < w.getD (j * 2) 0 →
        xydAt 2 (.fx w) j
            = -((w.getD (j * 2) 0 - w.getD (j * 2 + 1) 0 : ℕ) : ℝ) ∧
          xydAt 2 (.fx w) j < 0 ∧
          xydAt 2 (.fx w) j ≠
            ((((w.getD (j * 2 + 1) 0 : ℤ) - (w.getD (j * 2) 0 : ℤ))
              % 65536 : ℤ) : ℝ)) := by
  intro P w _
  constructor
  · unfold xydiffOfRecord
    congr 1
    push_cast
    apply Finset.sum_congr rfl
    intro j _
    simp only [xydAt]
    push_cast
    ring
  · intro j hj
    have hlt : (w.getD (j * 2 + 1) 0 : ℤ) - (w.getD (j * 2) 0 : ℤ) < 0 := by
      omega
    refine ⟨?_, ?_, ?_⟩
    · simp only [xydAt]
      push_cast [Nat.cast_sub (le_of_lt hj)]
      ring
    · simp only [xydAt]
      exact_mod_cast hlt
    · simp only [xydAt]
      intro hcontra
      have hz : (w.getD (j * 2 + 1) 0 : ℤ) - (w.getD (j * 2) 0 : ℤ)
          = ((w.getD (j * 2 + 1) 0 : ℤ) - (w.getD (j * 2) 0 : ℤ))
            % 65536 := by
        exact_mod_cast hcontra
      have hnn := Int.emod_nonneg
        ((w.getD (j * 2 + 1) 0 : ℤ) - (w.getD (j * 2) 0 : ℤ))
        (by norm_num : (65536 : ℤ) ≠ 0)
      omega

theorem C10_fixedpoint_exact_signed_witness :
    (∀ x ∈ ([5, 3] : List ℕ), x < 65536) ∧
    xydiffOfRecord 1 2 (.fx [5, 3]) =
      ((∑ j in Finset.range 1,
          ((([5, 3] : List ℕ).getD (j * 2 + 1) 0 : ℤ)
            - (([5, 3] : List ℕ).getD (j * 2) 0 : ℤ)) : ℤ) : ℝ)
        / ((1 : ℕ) : ℝ) ∧
    ([5, 3] : List ℕ).getD (0 * 2 + 1) 0 < ([5, 3] : List ℕ).getD (0 * 2) 0 ∧
    xydAt 2 (.fx [5, 3]) 0 < 0 := by
  have hb : ∀ x ∈ ([5, 3] : List ℕ), x < 65536 := by decide
  exact ⟨hb, (C10_fixedpoint_exact_signed 1 [5, 3] hb).1, by decide,
    ((C10_fixedpoint_exact_signed 1 [5, 3] hb).2 0 (by decide)).2.1⟩

end SimQC
